import Mathlib

/-!
Shallow embedding of the toxcbt bot shell (Go).  Strings are modelled as
lists of characters; the Go string operations used by the source
(strings.TrimSpace, strings.Split, strings.Join, strings.ReplaceAll,
strconv.ParseUint, hex.DecodeString validity) are translated below.
The file covers: the bootstrap-list parser and its default fallback, the
friend-message handler, the atomic save routine (over an explicit
file-system map with failure injection), and the run loop (with Go select
semantics: a uniformly random choice among ready cases, modelled by an
explicit choice oracle).
-/

namespace Toxcbt

/-- Go unicode.IsSpace: the whitespace code points recognised by
strings.TrimSpace (ASCII whitespace, NEL, NBSP and the Unicode
White_Space ranges). -/
def isSpace (c : Char) : Bool :=
  decide (c.toNat = 0x20 ∨ c.toNat = 0x9 ∨ c.toNat = 0xA ∨ c.toNat = 0xB ∨
    c.toNat = 0xC ∨ c.toNat = 0xD ∨ c.toNat = 0x85 ∨ c.toNat = 0xA0 ∨
    c.toNat = 0x1680 ∨ (0x2000 ≤ c.toNat ∧ c.toNat ≤ 0x200A) ∨
    c.toNat = 0x2028 ∨ c.toNat = 0x2029 ∨ c.toNat = 0x202F ∨
    c.toNat = 0x205F ∨ c.toNat = 0x3000)

/-- strings.TrimSpace: drop whitespace from both ends. -/
def trimSpace (l : List Char) : List Char :=
  ((l.dropWhile isSpace).reverse.dropWhile isSpace).reverse

/-- strings.Split with a one-character separator.  On the empty string it
returns one empty field, as in Go. -/
def splitChar (sep : Char) : List Char → List (List Char)
  | [] => [[]]
  | c :: cs =>
    if c = sep then [] :: splitChar sep cs
    else
      match splitChar sep cs with
      | [] => [[c]]
      | h :: t => (c :: h) :: t

/-- strings.Join with a one-character separator. -/
def goJoin (sep : Char) : List (List Char) → List Char
  | [] => []
  | [x] => x
  | x :: y :: ys => x ++ sep :: goJoin sep (y :: ys)

def isDigit (c : Char) : Bool := decide ('0' ≤ c ∧ c ≤ '9')

def digitVal (c : Char) : Nat := c.toNat - '0'.toNat

/-- strconv.ParseUint(s, 10, 16): decimal digits only, non-empty, value
below 2^16; returns none on any failure. -/
def parsePort (l : List Char) : Option Nat :=
  if l = [] then none
  else if l.all isDigit then
    let n := l.foldl (fun acc c => acc * 10 + digitVal c) 0
    if n < 65536 then some n else none
  else none

/-- strings.ReplaceAll(s, " ", ""): remove every ASCII space. -/
def stripSpaces (l : List Char) : List Char :=
  l.filter (fun c => decide (c ≠ ' '))

def isHexDigit (c : Char) : Bool :=
  decide (('0' ≤ c ∧ c ≤ '9') ∨ ('a' ≤ c ∧ c ≤ 'f') ∨ ('A' ≤ c ∧ c ≤ 'F'))

/-- hex.DecodeString succeeds exactly on even-length strings of hex
digits. -/
def hexOk (l : List Char) : Bool :=
  decide (l.length % 2 = 0) && l.all isHexDigit

structure bootstrapNode where
  host : List Char
  port : Nat
  key : List Char
deriving DecidableEq

/-- Declarative per-entry validator: the node a single comma-separated
entry yields, or none when the entry is invalid (fewer than 3 colon
fields, bad port, or non-hex key after space stripping).  An entry that
is empty after trimming splits into one colon field and is rejected by
the field-count test. -/
def entryNode (item : List Char) : Option bootstrapNode :=
  if (splitChar ':' (trimSpace item)).length < 3 then none
  else
    match parsePort (trimSpace ((splitChar ':' (trimSpace item)).getD 1 [])) with
    | none => none
    | some p =>
      if hexOk (stripSpaces (trimSpace
          (goJoin ':' ((splitChar ':' (trimSpace item)).drop 2)))) then
        some ⟨trimSpace ((splitChar ':' (trimSpace item)).getD 0 []), p,
          stripSpaces (trimSpace
            (goJoin ':' ((splitChar ':' (trimSpace item)).drop 2)))⟩
      else none

/-- The body of parseBootstrapEnv's for loop, with the source's
skip-and-continue structure. -/
def parseLoop : List (List Char) → List bootstrapNode
  | [] => []
  | item :: rest =>
    let it := trimSpace item
    if it = [] then parseLoop rest
    else
      let parts := splitChar ':' it
      if parts.length < 3 then parseLoop rest
      else
        let host := trimSpace (parts.getD 0 [])
        let portStr := trimSpace (parts.getD 1 [])
        let pubKey := trimSpace (goJoin ':' (parts.drop 2))
        match parsePort portStr with
        | none => parseLoop rest
        | some p =>
          let k := stripSpaces pubKey
          if hexOk k then ⟨host, p, k⟩ :: parseLoop rest
          else parseLoop rest

/-- parseBootstrapEnv from the source: trim the whole string, return nil
when empty, otherwise process the comma-separated entries. -/
def parseBootstrapEnv (s : List Char) : List bootstrapNode :=
  let t := trimSpace s
  if t = [] then [] else parseLoop (splitChar ',' t)

/-- defaultBootstrap from the source: the built-in pair of nodes. -/
def defaultBootstrap : List bootstrapNode :=
  [⟨"tox.abilinski.com".data, 33445,
    "10C00EB250C3233E343E2AEBA07115A5C28920E9C8D29492F6D00B29049EDC7E".data⟩,
   ⟨"144.217.167.73".data, 33445,
    "7E5668E0EE09E19F320AD47902419331FFEE147BB3606769CFBE921A2A2FD34C".data⟩]

/-- Node resolution in the root entry point: parse TOX_BOOTSTRAP_NODES and
fall back to the defaults when the parse is empty. -/
def resolveNodes (env : List Char) : List bootstrapNode :=
  let nodes := parseBootstrapEnv env
  if nodes = [] then defaultBootstrap else nodes

/-- The hard-coded bootstrap list of the cmd/toxcbt entry point. -/
def cmdBootstrapNodes : List bootstrapNode :=
  [⟨"tox.abilinski.com".data, 33445,
    "10C00EB250C3233E343E2AEBA07115A5C28920E9C8D29492F6D00B29049EDC7E".data⟩,
   ⟨"144.217.167.73".data, 33445,
    "7E5668E0EE09E19F320AD47902419331FFEE147BB3606769CFBE921A2A2FD34C".data⟩]

/-- The nodes the cmd/toxcbt entry point attempts to bootstrap against:
its hard-coded list, filtered by the hex-validity pre-check; the
TOX_BOOTSTRAP_NODES value is ignored by that entry point. -/
def cmdResolveNodes (_env : List Char) : List bootstrapNode :=
  cmdBootstrapNodes.filter (fun n => hexOk n.key)

/-- The friend-message callback: trim, dispatch on the trimmed text,
echo the original untrimmed text in the default case. -/
def handleMessage (selfAddress message : List Char) : List Char :=
  let msg := trimSpace message
  if msg = "/ping".data then "pong".data
  else if msg = "/id".data then "my tox id: ".data ++ selfAddress
  else "echo: ".data ++ message

/-- A file system: a map from paths (character lists) to file contents
(byte lists), none for an absent file. -/
def FS := List Char → Option (List Nat)

/-- Write, overwrite or delete a single path. -/
def setFile (fs : FS) (p : List Char) (v : Option (List Nat)) : FS :=
  fun q => if q = p then v else fs q

/-- The temporary path used by save: path + ".tmp". -/
def tmpPath (path : List Char) : List Char := path ++ ".tmp".data

/-- The save routine over the explicit file system.  writeOk and renameOk
inject the failure of os.WriteFile and os.Rename; residue is whatever
partial content a failed WriteFile may have left in the temp file.
Mirrors the source: empty data is skipped; otherwise the data is written
to the temp path; on rename success the temp file is moved onto the save
path, on rename failure the temp file is removed. -/
def saveRun (data : List Nat) (path : List Char) (writeOk renameOk : Bool)
    (residue : List Nat) (fs : FS) : FS :=
  if data = [] then fs
  else if writeOk = false then setFile fs (tmpPath path) (some residue)
  else
    let fs1 := setFile fs (tmpPath path) (some data)
    if renameOk then setFile (setFile fs1 (tmpPath path) none) path (some data)
    else setFile fs1 (tmpPath path) none

/-- Tie-break oracle for Go's select when several cases are ready: the
runtime picks one ready case uniformly at random. -/
inductive Choice where
  | pickDone
  | pickSave
deriving DecidableEq

/-- What one pass of the run loop observes: whether ctx.Done() is ready,
whether the save ticker channel is ready, and the runtime's random pick
when both are. -/
structure LoopObs where
  done : Bool
  save : Bool
  choice : Choice
deriving DecidableEq

inductive SelBranch where
  | doneB
  | saveB
  | tickB
deriving DecidableEq

/-- The select statement of the run loop: among the ready cases one is
chosen (pseudo-randomly when both are ready, per Go select semantics);
the default branch (one engine tick) runs only when neither channel is
ready. -/
def selectBranch (o : LoopObs) : SelBranch :=
  if o.done && o.save then
    match o.choice with
    | Choice.pickDone => SelBranch.doneB
    | Choice.pickSave => SelBranch.saveB
  else if o.done then SelBranch.doneB
  else if o.save then SelBranch.saveB
  else SelBranch.tickB

inductive Action where
  | finalSaveA
  | periodicSaveA
  | tickA
  | exitA
deriving DecidableEq

/-- The run loop as a trace of actions, driven by a finite list of
per-pass observations.  The ctx.Done() branch performs the final save
and returns from main; the ticker branch performs a periodic save and
loops; the default branch performs one tick and loops.  An exhausted
observation list means the loop is still running. -/
def runLoop : List LoopObs → List Action
  | [] => []
  | o :: rest =>
    match selectBranch o with
    | SelBranch.doneB => [Action.finalSaveA, Action.exitA]
    | SelBranch.saveB => Action.periodicSaveA :: runLoop rest
    | SelBranch.tickB => Action.tickA :: runLoop rest

lemma setFile_same (fs : FS) (p : List Char) (v : Option (List Nat)) :
    setFile fs p v p = v := by
  simp [setFile]

lemma setFile_other (fs : FS) (p : List Char) (v : Option (List Nat))
    (q : List Char) (h : q ≠ p) : setFile fs p v q = fs q := by
  simp [setFile, h]

lemma tmpPath_ne (path : List Char) : path ≠ tmpPath path := by
  intro h
  have hlen := congrArg List.length h
  simp [tmpPath] at hlen

lemma entryNode_of_trim_nil {item : List Char} (h : trimSpace item = []) :
    entryNode item = none := by
  simp [entryNode, h, splitChar]

lemma parseLoop_cons (item : List Char) (rest : List (List Char)) :
    parseLoop (item :: rest) =
      match entryNode item with
      | none => parseLoop rest
      | some n => n :: parseLoop rest := by
  by_cases h1 : trimSpace item = []
  · rw [entryNode_of_trim_nil h1]
    simp only [parseLoop]
    rw [if_pos h1]
  · simp only [parseLoop, entryNode]
    rw [if_neg h1]
    by_cases h2 : (splitChar ':' (trimSpace item)).length < 3
    · simp [h2]
    · rw [if_neg h2, if_neg h2]
      cases hp : parsePort (trimSpace ((splitChar ':' (trimSpace item)).getD 1 [])) with
      | none => simp [hp]
      | some p =>
        by_cases h4 : hexOk (stripSpaces (trimSpace
            (goJoin ':' ((splitChar ':' (trimSpace item)).drop 2)))) = true
        · simp [hp, h4]
        · simp [hp, h4]

lemma parseLoop_eq_filterMap (items : List (List Char)) :
    parseLoop items = items.filterMap entryNode := by
  induction items with
  | nil => rfl
  | cons item rest ih =>
    rw [parseLoop_cons, List.filterMap_cons]
    cases entryNode item <;> simp [ih]

lemma parse_eq (s : List Char) :
    parseBootstrapEnv s = (splitChar ',' (trimSpace s)).filterMap entryNode := by
  by_cases h : trimSpace s = []
  · have : entryNode [] = none := entryNode_of_trim_nil rfl
    simp [parseBootstrapEnv, h, splitChar, this]
  · simp only [parseBootstrapEnv]
    rw [if_neg h]
    exact parseLoop_eq_filterMap _

lemma mem_dropWhile_of_mem {p : Char → Bool} {c : Char} (hc : p c = false) :
    ∀ {l : List Char}, c ∈ l → c ∈ l.dropWhile p := by
  intro l
  induction l with
  | nil => intro h; exact absurd h (List.not_mem_nil c)
  | cons x xs ih =>
    intro h
    rw [List.dropWhile_cons]
    by_cases hx : p x = true
    · rw [if_pos hx]
      rcases List.mem_cons.mp h with h1 | h2
      · subst h1; rw [hc] at hx; exact absurd hx (by simp)
      · exact ih h2
    · rw [if_neg hx]
      exact h

lemma mem_trimSpace_of_mem {c : Char} (hc : isSpace c = false) {l : List Char}
    (h : c ∈ l) : c ∈ trimSpace l :=
  List.mem_reverse.mpr (mem_dropWhile_of_mem hc
    (List.mem_reverse.mpr (mem_dropWhile_of_mem hc h)))

lemma mem_stripSpaces_of_mem {c : Char} (hc : c ≠ ' ') {l : List Char}
    (h : c ∈ l) : c ∈ stripSpaces l :=
  List.mem_filter.mpr ⟨h, by simp [hc]⟩

lemma colon_mem_goJoin (a b : List Char) (l : List (List Char)) :
    (':' : Char) ∈ goJoin ':' (a :: b :: l) := by
  rw [goJoin]
  exact List.mem_append_right _ (List.mem_cons_self _ _)

lemma hexOk_all_hex {l : List Char} (h : hexOk l = true) {c : Char}
    (hc : c ∈ l) : isHexDigit c = true := by
  simp only [hexOk, Bool.and_eq_true, List.all_eq_true] at h
  exact h.2 c hc

lemma entryNode_key {item : List Char} {n : bootstrapNode}
    (h : entryNode item = some n) :
    hexOk n.key = true ∧
    n.key = stripSpaces (trimSpace
      (goJoin ':' ((splitChar ':' (trimSpace item)).drop 2))) := by
  unfold entryNode at h
  split at h
  · exact absurd h (by simp)
  · split at h
    · exact absurd h (by simp)
    · split at h
      · cases h
        exact ⟨by assumption, rfl⟩
      · exact absurd h (by simp)

/-- C1: for every incoming friend message, the handler trims surrounding
whitespace and dispatches on the trimmed text: "/ping" replies "pong",
"/id" replies "my tox id: " plus the bot's own address, and anything
else replies "echo: " plus the original untrimmed message text. -/
theorem handler_dispatch (addr msg : List Char) :
    (trimSpace msg = "/ping".data → handleMessage addr msg = "pong".data) ∧
    (trimSpace msg = "/id".data →
      handleMessage addr msg = "my tox id: ".data ++ addr) ∧
    (trimSpace msg ≠ "/ping".data → trimSpace msg ≠ "/id".data →
      handleMessage addr msg = "echo: ".data ++ msg) := by
  refine ⟨fun h => ?_, fun h => ?_, fun h1 h2 => ?_⟩
  · simp [handleMessage, h]
  · have hne : ("/id".data : List Char) ≠ "/ping".data := by decide
    simp [handleMessage, h, hne]
  · simp [handleMessage, h1, h2]

/-- Witness for C1 at the concrete messages " /ping ", "/id" and "x". -/
theorem handler_dispatch_witness :
    handleMessage "A".data " /ping ".data = "pong".data ∧
    handleMessage "A".data "/id".data = "my tox id: ".data ++ "A".data ∧
    handleMessage "A".data "x".data = "echo: ".data ++ "x".data :=
  ⟨(handler_dispatch "A".data " /ping ".data).1 (by decide),
   (handler_dispatch "A".data "/id".data).2.1 (by decide),
   (handler_dispatch "A".data "x".data).2.2 (by decide) (by decide)⟩

/-- C2 counterexample: on the message "  hello  " the handler echoes the
original untrimmed text, so the reply is not "echo: hello". -/
theorem echo_hello_cex :
    handleMessage [] "  hello  ".data ≠ "echo: hello".data := by decide

/-- C2 amended: on the message "  hello  " the reply is exactly
"echo:   hello  " — the echo prefix followed by the original untrimmed
text. -/
theorem echo_hello_amended (addr : List Char) :
    handleMessage addr "  hello  ".data = "echo:   hello  ".data := by
  have h1 : trimSpace "  hello  ".data ≠ "/ping".data := by decide
  have h2 : trimSpace "  hello  ".data ≠ "/id".data := by decide
  simp [handleMessage, h1, h2]

/-- C3: the parser returns exactly the valid comma-separated entries, in
input order, each carrying the entry's host, numeric port, and hex key
unchanged except for stripped spaces, with every invalid entry excluded
without affecting the others; entryNode is the declarative per-entry
validator stating those conditions. -/
theorem parse_exact (s : List Char) :
    parseBootstrapEnv s = (splitChar ',' (trimSpace s)).filterMap entryNode ∧
    ∀ n ∈ parseBootstrapEnv s,
      ∃ item ∈ splitChar ',' (trimSpace s), entryNode item = some n := by
  refine ⟨parse_eq s, fun n hn => ?_⟩
  rw [parse_eq] at hn
  obtain ⟨item, hitem, hsome⟩ := List.mem_filterMap.mp hn
  exact ⟨item, hitem, hsome⟩

/-- Witness for C3 at a mixed valid/invalid input. -/
theorem parse_exact_witness :
    parseBootstrapEnv " h1 : 1 : A B ,bad,h2:2:CD".data =
      (splitChar ',' (trimSpace " h1 : 1 : A B ,bad,h2:2:CD".data)).filterMap
        entryNode ∧
    (⟨"h1".data, 1, "AB".data⟩ : bootstrapNode) ∈
      parseBootstrapEnv " h1 : 1 : A B ,bad,h2:2:CD".data ∧
    ∃ item ∈ splitChar ',' (trimSpace " h1 : 1 : A B ,bad,h2:2:CD".data),
      entryNode item = some ⟨"h1".data, 1, "AB".data⟩ :=
  ⟨(parse_exact _).1, by decide,
   (parse_exact " h1 : 1 : A B ,bad,h2:2:CD".data).2 _ (by decide)⟩

/-- C4: when every comma-separated entry of the (trimmed) bootstrap
string is invalid — in particular when the string is empty or
whitespace-only — the resolved node list is exactly the built-in default
pair. -/
theorem default_fallback (s : List Char)
    (h : ∀ item ∈ splitChar ',' (trimSpace s), entryNode item = none) :
    resolveNodes s = defaultBootstrap := by
  have hp : parseBootstrapEnv s = [] := by
    rw [parse_eq]
    exact List.filterMap_eq_nil_iff.mpr h
  simp [resolveNodes, hp]

/-- Witness for C4 at a whitespace-only string and an all-invalid
string, via one application to the all-invalid one. -/
theorem default_fallback_witness :
    (∀ item ∈ splitChar ',' (trimSpace "  ,x:y,99".data),
      entryNode item = none) ∧
    resolveNodes "  ,x:y,99".data = defaultBootstrap ∧
    resolveNodes "   ".data = defaultBootstrap :=
  ⟨by decide, default_fallback "  ,x:y,99".data (by decide), by decide⟩

/-- C5: a save with an empty state blob performs no write at all: the
whole file system, temp path included, is left unchanged. -/
theorem save_empty_skip (data : List Nat) (path : List Char) (w r : Bool)
    (residue : List Nat) (fs : FS) (h : data = []) :
    saveRun data path w r residue fs = fs := by
  subst h
  simp [saveRun]

/-- Witness for C5 at an empty blob over a one-file file system. -/
theorem save_empty_skip_witness :
    ([] : List Nat) = [] ∧
    saveRun [] "bot.tox".data true true []
        (fun q => if q = "bot.tox".data then some [7] else none) =
      (fun q => if q = "bot.tox".data then some [7] else none) :=
  ⟨rfl, save_empty_skip [] "bot.tox".data true true [] _ rfl⟩

/-- C6: when the rename step fails, the file at the save path is
unmodified and the temp file is removed; and in every case the save path
holds either its previous content or the complete new blob, never a
partial write. -/
theorem save_rename_atomic (data : List Nat) (path : List Char) (w r : Bool)
    (residue : List Nat) (fs : FS) :
    (data ≠ [] → w = true → r = false →
      saveRun data path w r residue fs path = fs path ∧
      saveRun data path w r residue fs (tmpPath path) = none) ∧
    (saveRun data path w r residue fs path = fs path ∨
      saveRun data path w r residue fs path = some data) := by
  have hne := tmpPath_ne path
  constructor
  · intro hd hw hr
    subst hw; subst hr
    simp only [saveRun, if_neg hd]
    constructor
    · simp [setFile_other _ _ _ _ hne, setFile, hne]
    · simp [setFile]
  · by_cases hd : data = []
    · left; simp [saveRun, hd]
    · simp only [saveRun, if_neg hd]
      cases hw : w with
      | false => left; simp [setFile, hne]
      | true =>
        cases hr : r with
        | false => left; simp [setFile, hne]
        | true => right; simp [setFile]

/-- Witness for C6: rename failure over a file system holding a prior
snapshot at the save path. -/
theorem save_rename_atomic_witness :
    ([1, 2] : List Nat) ≠ [] ∧
    saveRun [1, 2] "a".data true false []
        (fun q => if q = "a".data then some [9] else none) "a".data =
      (fun q => if q = "a".data then some [9] else none) "a".data ∧
    saveRun [1, 2] "a".data true false []
        (fun q => if q = "a".data then some [9] else none)
        (tmpPath "a".data) = none :=
  ⟨by decide,
   ((save_rename_atomic [1, 2] "a".data true false []
       (fun q => if q = "a".data then some [9] else none)).1
     (by decide) rfl rfl).1,
   ((save_rename_atomic [1, 2] "a".data true false []
       (fun q => if q = "a".data then some [9] else none)).1
     (by decide) rfl rfl).2⟩

lemma selectBranch_done {o : LoopObs}
    (h : selectBranch o = SelBranch.doneB) : o.done = true := by
  rcases o with ⟨d, s, c⟩
  cases d
  · cases s <;> cases c <;> simp [selectBranch] at h
  · rfl

/-- C7: whenever the run loop exits, the trace ends with exactly one
final save immediately followed by the exit, no final save occurs
earlier, and some loop pass observed the shutdown signal — regardless of
any periodic saves before it. -/
theorem shutdown_final_save (obs : List LoopObs)
    (h : Action.exitA ∈ runLoop obs) :
    ∃ pre, runLoop obs = pre ++ [Action.finalSaveA, Action.exitA] ∧
      Action.finalSaveA ∉ pre ∧ Action.exitA ∉ pre ∧
      ∃ o ∈ obs, o.done = true := by
  induction obs with
  | nil => simp [runLoop] at h
  | cons o rest ih =>
    cases hb : selectBranch o with
    | doneB =>
      refine ⟨[], by simp [runLoop, hb], by simp, by simp,
        o, List.mem_cons_self _ _, selectBranch_done hb⟩
    | saveB =>
      have h2 : Action.exitA ∈ runLoop rest := by
        have := h
        simp only [runLoop, hb] at this
        rcases List.mem_cons.mp this with h1 | h1
        · exact absurd h1 (by decide)
        · exact h1
      obtain ⟨pre, hpre, hf, he, o2, ho2, hd2⟩ := ih h2
      exact ⟨Action.periodicSaveA :: pre, by simp [runLoop, hb, hpre],
        by simp [hf], by simp [he],
        o2, List.mem_cons_of_mem _ ho2, hd2⟩
    | tickB =>
      have h2 : Action.exitA ∈ runLoop rest := by
        have := h
        simp only [runLoop, hb] at this
        rcases List.mem_cons.mp this with h1 | h1
        · exact absurd h1 (by decide)
        · exact h1
      obtain ⟨pre, hpre, hf, he, o2, ho2, hd2⟩ := ih h2
      exact ⟨Action.tickA :: pre, by simp [runLoop, hb, hpre],
        by simp [hf], by simp [he],
        o2, List.mem_cons_of_mem _ ho2, hd2⟩

/-- Witness for C7 on a trace with a periodic save immediately before
the shutdown pass. -/
theorem shutdown_final_save_witness :
    Action.exitA ∈ runLoop [⟨false, false, Choice.pickDone⟩,
      ⟨false, true, Choice.pickDone⟩, ⟨true, false, Choice.pickDone⟩] ∧
    ∃ pre, runLoop [⟨false, false, Choice.pickDone⟩,
        ⟨false, true, Choice.pickDone⟩, ⟨true, false, Choice.pickDone⟩] =
        pre ++ [Action.finalSaveA, Action.exitA] ∧
      Action.finalSaveA ∉ pre ∧ Action.exitA ∉ pre ∧
      ∃ o ∈ [⟨false, false, Choice.pickDone⟩, ⟨false, true, Choice.pickDone⟩,
        ⟨true, false, Choice.pickDone⟩], LoopObs.done o = true :=
  ⟨by decide, shutdown_final_save _ (by decide)⟩

/-- C8 counterexample: with the shutdown signal and the save timer both
pending, the select may take the save branch — the shutdown case is not
checked first. -/
theorem select_priority_cex :
    selectBranch ⟨true, true, Choice.pickSave⟩ = SelBranch.saveB ∧
    SelBranch.saveB ≠ SelBranch.doneB := by decide

/-- C8 amended: a tick runs only when neither shutdown nor save is
pending; a lone pending shutdown or save is serviced; when both are
pending one of the two (chosen pseudo-randomly) is serviced before any
tick; a tick in flight is never interrupted (ticks are whole loop
actions). -/
theorem select_pending_before_tick (o : LoopObs) (rest : List LoopObs) :
    (selectBranch o = SelBranch.tickB ↔ o.done = false ∧ o.save = false) ∧
    (o.done = true → o.save = false → selectBranch o = SelBranch.doneB) ∧
    (o.save = true → o.done = false → selectBranch o = SelBranch.saveB) ∧
    (o.done = true → o.save = true →
      selectBranch o = SelBranch.doneB ∨ selectBranch o = SelBranch.saveB) ∧
    (o.done = false → o.save = false →
      runLoop (o :: rest) = Action.tickA :: runLoop rest) := by
  rcases o with ⟨d, s, c⟩
  cases d <;> cases s <;> cases c <;> simp [selectBranch, runLoop]

/-- Witness for C8's amended statement at concrete observations. -/
theorem select_pending_before_tick_witness :
    selectBranch ⟨true, false, Choice.pickDone⟩ = SelBranch.doneB ∧
    selectBranch ⟨false, true, Choice.pickDone⟩ = SelBranch.saveB ∧
    runLoop [⟨false, false, Choice.pickDone⟩] =
      Action.tickA :: runLoop [] :=
  ⟨(select_pending_before_tick ⟨true, false, Choice.pickDone⟩ []).2.1 rfl rfl,
   (select_pending_before_tick ⟨false, true, Choice.pickDone⟩ []).2.2.1 rfl rfl,
   (select_pending_before_tick ⟨false, false, Choice.pickDone⟩ []).2.2.2.2
     rfl rfl⟩

/-- C9 counterexample: with TOX_BOOTSTRAP_NODES set to a valid entry,
the root entry point bootstraps against the parsed node while the cmd/
entry point keeps its hard-coded pair, so the resolved lists differ. -/
theorem entry_points_cex :
    resolveNodes "example.com:33445:AB".data ≠
      cmdResolveNodes "example.com:33445:AB".data := by decide

/-- C9 amended: the cmd/ entry point ignores TOX_BOOTSTRAP_NODES and
always attempts the built-in pair; the two entry points resolve the same
list exactly when the variable parses to no valid node (so the root
falls back to the defaults) or happens to spell out the default pair
itself. -/
theorem entry_points_amended (env : List Char) :
    cmdResolveNodes env = defaultBootstrap ∧
    (resolveNodes env = cmdResolveNodes env ↔
      (parseBootstrapEnv env = [] ∨
        parseBootstrapEnv env = defaultBootstrap)) := by
  have hc : cmdResolveNodes env = defaultBootstrap := by
    unfold cmdResolveNodes
    decide
  refine ⟨hc, ?_⟩
  rw [hc]
  by_cases hp : parseBootstrapEnv env = []
  · simp [resolveNodes, hp]
  · simp [resolveNodes, hp]

/-- Witness for C9's amended statement at the empty variable. -/
theorem entry_points_amended_witness :
    cmdResolveNodes "".data = defaultBootstrap ∧
    resolveNodes "".data = cmdResolveNodes "".data :=
  ⟨(entry_points_amended "".data).1,
   (entry_points_amended "".data).2.mpr (Or.inl (by decide))⟩

/-- C10: an entry with more than three colon-separated fields is always
rejected (its rejoined key field contains a colon, which survives
trimming and space stripping and is not a hex digit), and consequently
no node returned by the parser ever has a colon in its key. -/
theorem colon_key_rejected (item s : List Char) (n : bootstrapNode) :
    (3 < (splitChar ':' (trimSpace item)).length → entryNode item = none) ∧
    (n ∈ parseBootstrapEnv s → (':' : Char) ∉ n.key) := by
  constructor
  · intro hlen
    have hnotlt : ¬ (splitChar ':' (trimSpace item)).length < 3 := by omega
    obtain ⟨a, b, t, habt⟩ : ∃ a b t,
        (splitChar ':' (trimSpace item)).drop 2 = a :: b :: t := by
      have hlen2 : 2 ≤ ((splitChar ':' (trimSpace item)).drop 2).length := by
        rw [List.length_drop]
        omega
      cases hd : (splitChar ':' (trimSpace item)).drop 2 with
      | nil => rw [hd] at hlen2; simp at hlen2
      | cons a u =>
        cases hu : u with
        | nil => rw [hd, hu] at hlen2; simp at hlen2
        | cons b t => exact ⟨a, b, t, rfl⟩
    have hmem : (':' : Char) ∈ stripSpaces (trimSpace
        (goJoin ':' ((splitChar ':' (trimSpace item)).drop 2))) := by
      apply mem_stripSpaces_of_mem (by decide)
      apply mem_trimSpace_of_mem (by decide)
      rw [habt]
      exact colon_mem_goJoin a b t
    have hhex : hexOk (stripSpaces (trimSpace
        (goJoin ':' ((splitChar ':' (trimSpace item)).drop 2)))) = false := by
      by_contra hT
      have hT2 := hexOk_all_hex (by simpa using hT) hmem
      exact absurd hT2 (by decide)
    unfold entryNode
    rw [if_neg hnotlt]
    cases hp : parsePort (trimSpace
        ((splitChar ':' (trimSpace item)).getD 1 [])) with
    | none => rfl
    | some p => simp [hhex]
  · intro hn hcol
    rw [parse_eq] at hn
    obtain ⟨item2, _, hsome⟩ := List.mem_filterMap.mp hn
    have hkey := (entryNode_key hsome).1
    have := hexOk_all_hex hkey hcol
    exact absurd this (by decide)

/-- Witness for C10 at a four-field entry and a parsed two-field-key
input. -/
theorem colon_key_rejected_witness :
    (3 < (splitChar ':' (trimSpace "a:1:b:c".data)).length ∧
      entryNode "a:1:b:c".data = none) ∧
    ((⟨"h".data, 1, "AB".data⟩ : bootstrapNode) ∈
        parseBootstrapEnv "h:1:AB".data ∧
      (':' : Char) ∉ (⟨"h".data, 1, "AB".data⟩ : bootstrapNode).key) :=
  ⟨⟨by decide,
    (colon_key_rejected "a:1:b:c".data "h:1:AB".data
      ⟨"h".data, 1, "AB".data⟩).1 (by decide)⟩,
   ⟨by decide,
    (colon_key_rejected "a:1:b:c".data "h:1:AB".data
      ⟨"h".data, 1, "AB".data⟩).2 (by decide)⟩⟩

end Toxcbt
